import Mathlib

/-! # Verification of the `taut` incremental test runner core

A shallow embedding, in Lean 4, of the parts of the `taut` code base that the
frozen claims C1–C10 are about:

* `src/blocks.rs` — block checksumming (`compute_checksum`, `extract_lines`)
  and top-level statement grouping (`extract_top_level`);
* `src/depdb.rs` — the dependency database (`update_blocks`,
  `record_test_coverage`, `needs_run`);
* `src/worker_pool.rs` — the worker wire protocol (`send_request` /
  `read_response`, which exchange newline-delimited JSON lines) and the
  crash-recovery logic of `worker_thread` and `run_tests`.

Modelling conventions:

* Rust `HashMap`s are modelled as association lists (`List (String × V)`)
  together with `mapInsert` (replace-first-occurrence-or-append, the
  observable behaviour of `HashMap::insert` on maps with distinct keys) and
  `List.lookup`.  The *order* of such a list stands for the map's iteration
  order, which for a Rust `HashMap` is unspecified and varies per process.
* `PathBuf` is modelled as `String` (paths here are always valid UTF-8).
* Machine integers are `Nat` with explicit reduction `% 2 ^ 64` where the
  Rust code relies on wrapping arithmetic (inside the xxh64 hash).
* Text manipulation is done on `List Char` by structural recursion (so that
  everything evaluates inside the kernel); `String` wrappers sit at the same
  places where the Rust code takes `&str`.
* `serde_json` serialization is modelled by an executable printer for the
  flat JSON objects that actually cross the wire / become map keys.
-/

namespace Taut

/-! ## Lines, as Rust's `str::lines` produces them

`str::lines` splits on `'\n'` with *terminator* semantics (a final trailing
newline does not yield an extra empty line) and strips one trailing `'\r'`
from each line. -/

/-- Split a character list at every `'\n'` (separator semantics, like
`str::split('\n')`: n newlines give n+1 pieces). -/
def splitNL : List Char → List (List Char)
  | [] => [[]]
  | c :: cs =>
    let rest := splitNL cs
    if c = '\n' then [] :: rest
    else
      match rest with
      | [] => [[c]]
      | l :: ls => (c :: l) :: ls

/-- Whitespace for trimming.  Rust's `str::trim` uses Unicode `White_Space`;
on the ASCII whitespace appearing in program text the two coincide. -/
def pyWs (c : Char) : Bool := c.isWhitespace

/-- `str::trim`: drop leading and trailing whitespace. -/
def trimLine (l : List Char) : List Char :=
  ((l.dropWhile pyWs).reverse.dropWhile pyWs).reverse

/-- `str::starts_with('#')` on a line. -/
def startsWithHash : List Char → Bool
  | c :: _ => c = '#'
  | [] => false

/-- Rust `source.lines()` collected to a list of lines. -/
def rustLinesC (s : List Char) : List (List Char) :=
  let parts := splitNL s
  let parts :=
    match parts.getLast? with
    | some [] => parts.dropLast
    | _ => parts
  parts.map fun l =>
    match l.getLast? with
    | some c => if c = '\r' then l.dropLast else l
    | none => l

/-- `source.lines()` of a `String`. -/
def rustLines (s : String) : List (List Char) := rustLinesC s.data

/-- Join lines with a single `'\n'` (Rust `join("\n")`). -/
def joinNL : List (List Char) → List Char
  | [] => []
  | [l] => l
  | l :: ls => l ++ '\n' :: joinNL ls

/-- UTF-8 encoding of one character (for `str::as_bytes`). -/
def utf8Char (c : Char) : List Nat :=
  let n := c.toNat
  if n < 0x80 then [n]
  else if n < 0x800 then
    [0xC0 ||| (n >>> 6), 0x80 ||| (n &&& 0x3F)]
  else if n < 0x10000 then
    [0xE0 ||| (n >>> 12), 0x80 ||| ((n >>> 6) &&& 0x3F), 0x80 ||| (n &&& 0x3F)]
  else
    [0xF0 ||| (n >>> 18), 0x80 ||| ((n >>> 12) &&& 0x3F),
      0x80 ||| ((n >>> 6) &&& 0x3F), 0x80 ||| (n &&& 0x3F)]

/-- `str::as_bytes`: UTF-8 bytes of a character list. -/
def utf8Bytes (l : List Char) : List Nat := (l.map utf8Char).flatten

/-! ## The xxh64 hash (the `xxhash_rust::xxh64::xxh64` the code calls)

`compute_checksum` hashes the normalized source with `xxh64(bytes, 0)` and
renders the 64-bit result as lowercase hex.  The hash is embedded here in
full, on byte lists with all arithmetic reduced modulo `2 ^ 64`.  No theorem
below depends on its internals — only on it being a function. -/

def word64 : Nat := 2 ^ 64

def prime64_1 : Nat := 0x9E3779B185EBCA87
def prime64_2 : Nat := 0xC2B2AE3D27D4EB4F
def prime64_3 : Nat := 0x165667B19E3779F9
def prime64_4 : Nat := 0x85EBCA77C2B2AE63
def prime64_5 : Nat := 0x27D4EB2F165667C5

/-- 64-bit rotate left (input assumed `< 2 ^ 64`). -/
def rotl64 (x r : Nat) : Nat := ((x <<< r) % word64) ||| (x >>> (64 - r))

/-- One xxh64 accumulator round. -/
def round64 (acc input : Nat) : Nat :=
  rotl64 ((acc + input * prime64_2) % word64) 31 * prime64_1 % word64

/-- Merging one stripe accumulator into the digest. -/
def mergeRound64 (h v : Nat) : Nat :=
  ((h ^^^ round64 0 v) * prime64_1 % word64 + prime64_4) % word64

/-- The final avalanche mixing. -/
def avalanche64 (h0 : Nat) : Nat :=
  let h1 := h0 ^^^ (h0 >>> 33)
  let h2 := h1 * prime64_2 % word64
  let h3 := h2 ^^^ (h2 >>> 29)
  let h4 := h3 * prime64_3 % word64
  h4 ^^^ (h4 >>> 32)

/-- Read the first `n` bytes of `b` as a little-endian number. -/
def readLE (b : List Nat) (n : Nat) : Nat :=
  (b.take n).foldr (fun byte acc => acc * 256 + byte % 256) 0

/-- The 32-byte stripe loop of xxh64 (fuel-driven structural recursion;
`b.length` fuel always suffices since each pass consumes 32 bytes). -/
def xxhStripesGo : Nat → (Nat × Nat × Nat × Nat) → List Nat →
    (Nat × Nat × Nat × Nat) × List Nat
  | 0, v, b => (v, b)
  | fuel + 1, v, b =>
    if 32 ≤ b.length then
      xxhStripesGo fuel
        (round64 v.1 (readLE b 8), round64 v.2.1 (readLE (b.drop 8) 8),
          round64 v.2.2.1 (readLE (b.drop 16) 8),
          round64 v.2.2.2 (readLE (b.drop 24) 8))
        (b.drop 32)
    else (v, b)

/-- The 32-byte stripe loop, applied to the whole input. -/
def xxhStripes (v : Nat × Nat × Nat × Nat) (b : List Nat) :
    (Nat × Nat × Nat × Nat) × List Nat :=
  xxhStripesGo b.length v b

/-- The 8-byte tail loop of xxh64 (fuel-driven, as above). -/
def xxhTail8Go : Nat → Nat → List Nat → Nat × List Nat
  | 0, h, b => (h, b)
  | fuel + 1, h, b =>
    if 8 ≤ b.length then
      xxhTail8Go fuel
        ((rotl64 (h ^^^ round64 0 (readLE b 8)) 27 * prime64_1 % word64
            + prime64_4) % word64)
        (b.drop 8)
    else (h, b)

/-- The 8-byte tail loop, applied to the whole remainder. -/
def xxhTail8 (h : Nat) (b : List Nat) : Nat × List Nat :=
  xxhTail8Go b.length h b

/-- xxh64 of a byte list with the given seed (the code always passes seed 0). -/
def xxh64 (b : List Nat) (seed : Nat) : Nat :=
  let len := b.length
  let step1 :=
    if 32 ≤ len then
      let v1 := (seed + prime64_1 + prime64_2) % word64
      let v2 := (seed + prime64_2) % word64
      let v3 := seed % word64
      let v4 := (seed + word64 - prime64_1 % word64) % word64
      let sr := xxhStripes (v1, v2, v3, v4) b
      let h := (rotl64 sr.1.1 1 + rotl64 sr.1.2.1 7 + rotl64 sr.1.2.2.1 12
        + rotl64 sr.1.2.2.2 18) % word64
      let h := mergeRound64 h sr.1.1
      let h := mergeRound64 h sr.1.2.1
      let h := mergeRound64 h sr.1.2.2.1
      let h := mergeRound64 h sr.1.2.2.2
      (h, sr.2)
    else ((seed + prime64_5) % word64, b)
  let h1 := (step1.1 + len) % word64
  let step2 := xxhTail8 h1 step1.2
  let step3 :=
    if 4 ≤ step2.2.length then
      ((rotl64 (step2.1 ^^^ (readLE step2.2 4 * prime64_1 % word64)) 23
          * prime64_2 % word64 + prime64_3) % word64,
        step2.2.drop 4)
    else step2
  let h4 := step3.2.foldl
    (fun h byte =>
      rotl64 (h ^^^ (byte % 256 * prime64_5 % word64)) 11 * prime64_1 % word64)
    step3.1
  avalanche64 h4

/-- One digit as a character: `0`–`9` then lowercase `a`–`f`. -/
def digitToChar (n : Nat) : Char :=
  if n < 10 then Char.ofNat (48 + n) else Char.ofNat (87 + n)

/-- Digits of `n` in the given base, most significant first (fuel-driven;
`n + 1` fuel always suffices). -/
def natToDigitsGo (base : Nat) : Nat → Nat → List Char → List Char
  | 0, _, acc => acc
  | fuel + 1, n, acc =>
    let acc := digitToChar (n % base) :: acc
    if n / base = 0 then acc else natToDigitsGo base fuel (n / base) acc

/-- Decimal / hex rendering of a natural number, as Rust's formatter emits
it (no padding, lowercase). -/
def natToDigits (base n : Nat) : List Char := natToDigitsGo base (n + 1) n []

/-- Rust's `format!("\x7b:x\x7d", hash)`: lowercase hex, no padding. -/
def toHex (n : Nat) : String := String.mk (natToDigits 16 n)

/-! ## `compute_checksum` (src/blocks.rs lines 277–287) -/

/-- The line normalization inside `compute_checksum`: trim every line, drop
lines that are empty or start with `#` after trimming. -/
def norm_lines (ls : List (List Char)) : List (List Char) :=
  (ls.map trimLine).filter (fun l => !l.isEmpty && !startsWithHash l)

/-- `compute_checksum` from src/blocks.rs: normalize (trim lines, drop
blank/comment lines, rejoin with `"\n"`), then `xxh64(_, 0)` rendered as
lowercase hex. -/
def compute_checksum (source : String) : String :=
  let normalized := joinNL (norm_lines (rustLines source))
  toHex (xxh64 (utf8Bytes normalized) 0)

/-- `extract_lines` from src/blocks.rs: the 1-indexed inclusive line range
`start..=end` of `source`, rejoined with `"\n"`. -/
def extract_lines (source : String) (start «end» : Nat) : String :=
  String.mk (joinNL
    (((rustLines source).enum.filter
        (fun p => decide (p.1 + 1 ≥ start) && decide (p.1 < «end»))).map
      (fun p => p.2)))

/-- The checksum algorithm exactly as the spec's sentence describes it:
"splitting the block's source region into lines, stripping leading and
trailing whitespace from each line, dropping every line that is empty or
begins with '#' after trimming, rejoining with a single newline, and
hashing". -/
def checksum_spec_description (source : String) : String :=
  let stripped := (rustLines source).map trimLine
  let kept := stripped.filter (fun l => !(l.isEmpty || startsWithHash l))
  toHex (xxh64 (utf8Bytes (joinNL kept)) 0)

/-! ## The edit relation of claim C1

`LineEquiv xs ys` relates two line lists that differ only by inserted or
removed dropped lines (blank after trimming, or `#`-comment after trimming)
and by per-line reindentation (equal after trimming).  The claim's side
condition "outside string literals" restricts the allowed edits further, so
any edit the claim allows is an instance of this relation. -/

/-- A line that `compute_checksum`'s normalization drops. -/
def dropped_line (l : List Char) : Bool :=
  (trimLine l).isEmpty || startsWithHash (trimLine l)

/-- Two line lists equal up to reindentation and dropped-line insertions. -/
inductive LineEquiv : List (List Char) → List (List Char) → Prop
  | nil : LineEquiv [] []
  | keep (a b : List Char) (xs ys : List (List Char)) :
      trimLine a = trimLine b → LineEquiv xs ys →
      LineEquiv (a :: xs) (b :: ys)
  | insL (a : List Char) (xs ys : List (List Char)) :
      dropped_line a = true → LineEquiv xs ys → LineEquiv (a :: xs) ys
  | insR (b : List Char) (xs ys : List (List Char)) :
      dropped_line b = true → LineEquiv xs ys → LineEquiv xs (b :: ys)

/-! ## `serde_json` serialization of the values this program serializes

`depdb.rs` keys its two maps by `serde_json::to_string` of `BlockId` /
`TestId`; `worker_pool.rs` sends `serde_json::to_string` of a `json!
\x7b...\x7d` object as one line.  Both are flat JSON objects whose field
values are strings, numbers, booleans or null, so a printer for exactly that
shape is embedded.  String contents are escaped the way `serde_json` does
(controls, quote and backslash). -/

def quoteChar : Char := Char.ofNat 34

def backslashChar : Char := Char.ofNat 92

/-- One hex digit (for `\u00XX` escapes). -/
def hexDigit (n : Nat) : Char := digitToChar (n % 16)

/-- `serde_json`'s escaping of one character inside a JSON string. -/
def escapeChar (c : Char) : List Char :=
  if c = quoteChar then [backslashChar, quoteChar]
  else if c = backslashChar then [backslashChar, backslashChar]
  else if c = '\n' then [backslashChar, 'n']
  else if c = '\r' then [backslashChar, 'r']
  else if c = '\t' then [backslashChar, 't']
  else if c = Char.ofNat 8 then [backslashChar, 'b']
  else if c = Char.ofNat 12 then [backslashChar, 'f']
  else if c.toNat < 32 then
    [backslashChar, 'u', '0', '0', hexDigit (c.toNat / 16), hexDigit c.toNat]
  else [c]

/-- A JSON string literal: quote, escaped contents, quote. -/
def jsonString (s : String) : List Char :=
  quoteChar :: (s.data.map escapeChar).flatten ++ [quoteChar]

/-- The scalar JSON values this program ever places in an object field. -/
inductive JVal
  | null
  | jb (b : Bool)
  | jn (n : Nat)
  | js (s : String)

/-- Printing one JSON scalar. -/
def jvalChars : JVal → List Char
  | .null => "null".data
  | .jb true => "true".data
  | .jb false => "false".data
  | .jn n => natToDigits 10 n
  | .js s => jsonString s

/-- Join pieces with a separator character. -/
def joinSep (sep : Char) : List (List Char) → List Char
  | [] => []
  | [l] => l
  | l :: ls => l ++ sep :: joinSep sep ls

/-- A flat JSON object, printed compactly (no spaces) in field order. -/
def jsonObjChars (o : List (String × JVal)) : List Char :=
  Char.ofNat 123
    :: (joinSep ',' (o.map fun kv => jsonString kv.1 ++ ':' :: jvalChars kv.2))
    ++ [Char.ofNat 125]

/-- `serde_json::to_string` of a flat object. -/
def jsonObjToString (o : List (String × JVal)) : String :=
  String.mk (jsonObjChars o)

/-! ## Data model of src/blocks.rs and src/depdb.rs -/

/-- `BlockKind` from src/blocks.rs. -/
inductive BlockKind
  | Function
  | Method
  | Class
  | TopLevel
  | Import
deriving DecidableEq

/-- The serde name of a unit enum variant (how `BlockKind` appears inside a
serialized `BlockId`). -/
def kindName : BlockKind → String
  | .Function => "Function"
  | .Method => "Method"
  | .Class => "Class"
  | .TopLevel => "TopLevel"
  | .Import => "Import"

/-- `BlockId` from src/blocks.rs. -/
structure BlockId where
  file : String
  kind : BlockKind
  name : String
  start_line : Nat
  end_line : Nat
deriving DecidableEq

/-- `Block` from src/blocks.rs. -/
structure Block where
  id : BlockId
  checksum : String
deriving DecidableEq

/-- `FileBlocks` from src/blocks.rs: the blocks of one file plus the
line-number → block-index map. -/
structure FileBlocks where
  file : String
  blocks : List Block
  line_to_block : List (Nat × Nat)
deriving DecidableEq

/-- `FileBlocks::get_block_for_line`: look the line up in `line_to_block`,
then index into `blocks` (the stored index is always in range; an
out-of-range index yields `none` here where Rust would panic). -/
def get_block_for_line (fb : FileBlocks) (line : Nat) : Option Block :=
  (List.lookup line fb.line_to_block).bind fun idx => fb.blocks.get? idx

/-- A test marker (src/markers.rs).  Marker arguments beyond the skip reason
are opaque to every claim treated here and are omitted. -/
structure Marker where
  name : String
  reason : Option String
deriving DecidableEq

/-- `TestItem` from src/discovery.rs. -/
structure TestItem where
  file : String
  function : String
  «class» : Option String
  line : Nat
  markers : List Marker
deriving DecidableEq

/-- `TestId` from src/depdb.rs. -/
structure TestId where
  file : String
  function : String
  «class» : Option String
deriving DecidableEq

/-- `TestId::from(&TestItem)`. -/
def TestId.ofItem (item : TestItem) : TestId :=
  ⟨item.file, item.function, item.«class»⟩

/-- `DependencyDatabase::block_key`: `serde_json::to_string(block_id)`,
with the struct's fields in declaration order. -/
def block_key (id : BlockId) : String :=
  jsonObjToString
    [("file", .js id.file), ("kind", .js (kindName id.kind)),
      ("name", .js id.name), ("start_line", .jn id.start_line),
      ("end_line", .jn id.end_line)]

/-- `DependencyDatabase::test_key`: `serde_json::to_string(test_id)`. -/
def test_key (id : TestId) : String :=
  jsonObjToString
    [("file", .js id.file), ("function", .js id.function),
      ("class", match id.«class» with | some c => .js c | none => .null)]

/- `block_key` and `test_key` are only ever used as opaque map keys; keeping
them irreducible stops the elaborator from unfolding the JSON printer during
unification (the kernel still evaluates them in concrete witnesses). -/
attribute [irreducible] block_key test_key

/-- `TestRunDecision` from src/depdb.rs. -/
inductive TestRunDecision
  | CanSkip
  | NeverRun
  | FailedLastTime
  | DependencyChanged
  | DependencyDeleted
deriving DecidableEq

/-- `TestDependency` from src/depdb.rs.  The `dependencies` map is a
`HashMap`; its list order here stands for the map's (unspecified) iteration
order. -/
structure TestDependency where
  dependencies : List (String × String)
  last_run_passed : Bool
deriving DecidableEq

/-- `DependencyDatabase` from src/depdb.rs. -/
structure DependencyDatabase where
  blocks : List (String × String)
  tests : List (String × TestDependency)
deriving DecidableEq

/-- `HashMap::insert` on an association list: replace the first entry with
this key, or append. -/
def mapInsert {V : Type} : List (String × V) → String → V → List (String × V)
  | [], k, v => [(k, v)]
  | (k1, v1) :: rest, k, v =>
    if k1 = k then (k, v) :: rest else (k1, v1) :: mapInsert rest k v

/-- `DependencyDatabase::update_blocks`: for every block of the file, set
`blocks[key] = checksum`.  Nothing is removed. -/
def update_blocks (db : DependencyDatabase) (file_blocks : FileBlocks) :
    DependencyDatabase :=
  { db with
    blocks := file_blocks.blocks.foldl
      (fun m b => mapInsert m (block_key b.id) b.checksum) db.blocks }

/-- `DependencyDatabase::record_test_coverage`: map every covered line to a
block via the index, collect `block_key → checksum`, store the row
(overwriting any prior row for this test). -/
def record_test_coverage (db : DependencyDatabase) (test : TestItem)
    (coverage : List (String × List Nat)) (passed : Bool)
    (block_index : List (String × FileBlocks)) : DependencyDatabase :=
  let dependencies := coverage.foldl
    (fun deps fl =>
      match List.lookup fl.1 block_index with
      | some file_blocks =>
        fl.2.foldl
          (fun deps line =>
            match get_block_for_line file_blocks line with
            | some block => mapInsert deps (block_key block.id) block.checksum
            | none => deps)
          deps
      | none => deps)
    []
  { db with
    tests := mapInsert db.tests (test_key (TestId.ofItem test))
      ⟨dependencies, passed⟩ }

/-- The dependency-checking loop inside `needs_run` (src/depdb.rs lines
142–153): first mismatching entry in iteration order decides. -/
def needs_run_deps (deps blocks : List (String × String)) : TestRunDecision :=
  match deps with
  | [] => .CanSkip
  | (key, expected_checksum) :: rest =>
    match List.lookup key blocks with
    | some current_checksum =>
      if current_checksum ≠ expected_checksum then .DependencyChanged
      else needs_run_deps rest blocks
    | none => .DependencyDeleted

/-- `DependencyDatabase::needs_run`. -/
def needs_run (db : DependencyDatabase) (test : TestItem) : TestRunDecision :=
  match List.lookup (test_key (TestId.ofItem test)) db.tests with
  | none => .NeverRun
  | some dep =>
    if !dep.last_run_passed then .FailedLastTime
    else needs_run_deps dep.dependencies db.blocks

/-- The per-entry signal of the dependency scan: `DependencyDeleted` for an
entry absent from the Blocks table, `DependencyChanged` for one with a
different checksum, nothing for a match. -/
def depSignal (blocks : List (String × String)) (kc : String × String) :
    Option TestRunDecision :=
  match List.lookup kc.1 blocks with
  | none => some .DependencyDeleted
  | some current => if current ≠ kc.2 then some .DependencyChanged else none

/-! ## Concrete fixtures used by witnesses and counterexamples -/

/-- A test item for the fixtures. -/
def itemA : TestItem := ⟨"a.py", "test_y", none, 8, []⟩

/-- The id of a block whose checksum will have changed. -/
def bidChanged : BlockId := ⟨"a.py", .Function, "helper", 1, 2⟩

/-- The id of a block that will have been deleted from the Blocks table. -/
def bidDeleted : BlockId := ⟨"a.py", .Function, "gone", 4, 5⟩

/-- A dependency map (in iteration order) holding a changed entry first and
a deleted entry second. -/
def depsChangedFirst : List (String × String) :=
  [(block_key bidChanged, "old"), (block_key bidDeleted, "xx")]

/-- A database where `itemA` passed last time, its first dependency has
checksum `"new"` (≠ recorded `"old"`), and its second is absent. -/
def dbChangedAndDeleted : DependencyDatabase :=
  ⟨[(block_key bidChanged, "new")],
    [(test_key (TestId.ofItem itemA), ⟨depsChangedFirst, true⟩)]⟩

/-- A database whose Tests table has one row whose single dependency matches
the Blocks table. -/
def dbAllMatch : DependencyDatabase :=
  ⟨[(block_key bidChanged, "aa")],
    [(test_key (TestId.ofItem itemA), ⟨[(block_key bidChanged, "aa")], true⟩)]⟩

/-- A stale block id: present in the Blocks table, absent from the re-indexed
file. -/
def staleId : BlockId := ⟨"f.py", .Function, "gone", 1, 2⟩

/-- The single block of the re-indexed file. -/
def keptBlock : Block := ⟨⟨"f.py", .Function, "kept", 4, 5⟩, "c2"⟩

/-- Blocks table before re-indexing: only the stale entry. -/
def dbStale : DependencyDatabase := ⟨[(block_key staleId, "c1")], []⟩

/-- The re-indexed `FileBlocks` of `"f.py"`: the stale block is gone. -/
def fbKept : FileBlocks := ⟨"f.py", [keptBlock], [(4, 0), (5, 0)]⟩

/-! ## The worker wire protocol (src/worker_pool.rs lines 272–287)

`Worker::send_request` writes `serde_json::to_string(req)` followed by the
`'\n'` appended by `writeln!`; `Worker::read_response` does `read_line` and
parses the line.  The Python side mirrors this (`for line in sys.stdin` /
`print(json.dumps(resp))`).  `serde_json`'s `Value` objects are backed by a
`BTreeMap`, so `json!` object fields serialize sorted by key; request
definitions below list fields in that sorted order. -/

/-- The request built in `Worker::run_test` (src/worker_pool.rs lines
293–299), fields in `BTreeMap` (alphabetical) order. -/
def run_test_request (id : Nat) (file function : String) (cls : Option String)
    (collect_coverage : Bool) : List (String × JVal) :=
  [("class", match cls with | some c => .js c | none => .null),
    ("collect_coverage", .jb collect_coverage),
    ("file", .js file),
    ("function", .js function),
    ("id", .jn id)]

/-- The `\x7b"cmd":"shutdown"\x7d` control request. -/
def shutdown_request : List (String × JVal) := [("cmd", .js "shutdown")]

/-- `Worker::send_request`: the characters one request puts on the wire —
the JSON text and the newline from `writeln!`. -/
def send_request_frame (req : List (String × JVal)) : List Char :=
  jsonObjChars req ++ ['\n']

/-- The frame as bytes on the wire. -/
def frame_bytes (req : List (String × JVal)) : List Nat :=
  utf8Bytes (send_request_frame req)

/-- `BufRead::read_line` (used by `Worker::read_response`): the consumed
line *including* its terminating newline, and the remaining stream. -/
def read_line : List Char → List Char × List Char
  | [] => ([], [])
  | c :: cs =>
    if c = '\n' then ([c], cs)
    else
      let r := read_line cs
      (c :: r.1, r.2)

/-- A 32-bit little-endian length prefix, as the four bytes the claim says
every frame starts with. -/
def u32le (n : Nat) : List Nat :=
  [n % 256, n / 256 % 256, n / 65536 % 256, n / 16777216 % 256]

/-! ## The worker pool (src/worker_pool.rs lines 380–612)

`runner.rs` data carried by results; `Duration` is modelled as a natural
number of nanoseconds (`Duration::ZERO` ↦ `0`). -/

/-- `TestError` from src/runner.rs. -/
structure TestError where
  message : String
  traceback : Option String
deriving DecidableEq

/-- `TestCoverage` from src/runner.rs. -/
structure TestCoverage where
  files : List (String × List Nat)
deriving DecidableEq

/-- `TestResult` from src/runner.rs. -/
structure TestResult where
  item : TestItem
  passed : Bool
  duration : Nat
  error : Option TestError
  skipped : Bool
  skip_reason : Option String
  coverage : Option TestCoverage
  stdout : Option String
  stderr : Option String
deriving DecidableEq

/-- The accessor results `Worker::run_test` extracts from the parsed JSON
response (src/worker_pool.rs lines 304–366): each field is `none` when
absent or of the wrong type, mirroring the `.get(..).and_then(..)` chains. -/
structure RespFields where
  passed : Option Bool
  duration : Nat
  error : Option TestError
  coverage : Option (List (String × List Nat))
  stdout : Option String
  stderr : Option String

/-- `Worker::run_test` after the I/O: on a successful read, compose the
`TestResult` — with `item` set to the item that was asked for, `passed`
defaulting to `false`, coverage only when requested; on an I/O or parse
failure, the error propagates. -/
def worker_run_test (item : TestItem) (collect_coverage : Bool)
    (io : Except String RespFields) : Except String TestResult :=
  match io with
  | .error e => .error e
  | .ok resp =>
    .ok
      { item := item
        passed := resp.passed.getD false
        duration := resp.duration
        error := resp.error
        skipped := false
        skip_reason := none
        coverage :=
          if collect_coverage then resp.coverage.map TestCoverage.mk else none
        stdout := resp.stdout
        stderr := resp.stderr }

/-- The failing `TestResult` the supervisor fabricates (duration zero, the
diagnostic as the error message). -/
def fabricated_failure (item : TestItem) (message : String) : TestResult :=
  ⟨item, false, 0, some ⟨message, none⟩, false, none, none, none, none⟩

/-- The error-handling block of `worker_thread` (src/worker_pool.rs lines
532–590): `first` is the first `run_test` outcome, `alive` the
`worker.is_alive()` probe after a failure, `respawned` whether
`Worker::spawn()` succeeded, `retry` the outcome of the single retried
`run_test` on the fresh worker. -/
def handle_task_outcome (item : TestItem)
    (first : Except String TestResult) (alive : Bool) (respawned : Bool)
    (retry : Except String TestResult) : TestResult :=
  match first with
  | .ok r => r
  | .error e =>
    if !alive then
      if respawned then
        match retry with
        | .ok r => r
        | .error e2 =>
          fabricated_failure item ("Worker error after respawn: " ++ e2)
      else fabricated_failure item ("Worker crashed and respawn failed: " ++ e)
    else fabricated_failure item ("Worker error: " ++ e)

/-- A passing result fixture. -/
def passing_result (item : TestItem) : TestResult :=
  ⟨item, true, 0, none, false, none, none, none, none⟩

/-! ## `WorkerPool::run_tests` result collection (lines 459–499) -/

/-- The fabricated result for a slot that never produced one. -/
def not_executed_result (item : TestItem) : TestResult :=
  ⟨item, false, 0,
    some ⟨"Test was not executed (worker pool error)", none⟩,
    false, none, none, none, none⟩

/-- Placeholder for the (never reached) out-of-range index; where the model
would use it, the Rust code would have panicked on `items[idx]`. -/
def dummyItem : TestItem := ⟨"", "", none, 0, []⟩

/-- The collection logic of `run_tests`: a pre-sized `Vec<Option<_>>` filled
by index from the result channel (`completions` in arrival order; the queue
hands each index out once), then every empty slot fabricates a failure for
the input item at that index. -/
def run_tests_collect (items : List TestItem)
    (completions : List (Nat × TestResult)) : List TestResult :=
  let filled := completions.foldl (fun acc c => acc.set c.1 (some c.2))
    (List.replicate items.length none)
  (List.range items.length).map fun idx =>
    (filled.getD idx none).getD (not_executed_result (items.getD idx dummyItem))

/-- A second test item for fixtures. -/
def itemB : TestItem := ⟨"b.py", "test_z", some "TestB", 3, []⟩

/-! ## `extract_top_level` (src/blocks.rs lines 117–170)

The parser (`rustpython_parser`) is external: a statement is modelled by its
syntactic kind and the 1-indexed line range `offset_to_line` computes from
its AST range. -/

/-- The top-level statement kinds `extract_top_level` distinguishes. -/
inductive StmtKind
  | importStmt
  | importFrom
  | functionDef
  | asyncFunctionDef
  | classDef
  | other
deriving DecidableEq

/-- A top-level statement: kind plus line range. -/
structure Stmt where
  kind : StmtKind
  start_line : Nat
  end_line : Nat
deriving DecidableEq

/-- The classification loop of `extract_top_level` (lines 120–132): the
`match` skips `Import`, `ImportFrom`, `FunctionDef` and `ClassDef` —
`AsyncFunctionDef` is **not** in the skip list and falls into the catch-all
arm — and every non-skipped statement contributes its line range. -/
def top_level_ranges (stmts : List Stmt) : List (Nat × Nat) :=
  stmts.filterMap fun s =>
    match s.kind with
    | .importStmt | .importFrom | .functionDef | .classDef => none
    | _ => some (s.start_line, s.end_line)

/-- The `add_block` closure of `extract_top_level` (lines 143–155). -/
def mk_top_level_block (file source : String) (start «end» num : Nat) :
    Block :=
  { id := ⟨file, .TopLevel,
      "<toplevel_" ++ String.mk (natToDigits 10 num) ++ ">", start, «end»⟩
    checksum := compute_checksum (extract_lines source start «end») }

/-- The merge loop of `extract_top_level` (lines 157–169): merge the next
range into the current group when `start ≤ current_end + 2`, otherwise emit
the current group and open a new one; the last group is emitted at the end. -/
def merge_top_level (file source : String) :
    List (Nat × Nat) → Nat → Nat → Nat → List Block → List Block
  | [], current_start, current_end, block_num, acc =>
    acc ++ [mk_top_level_block file source current_start current_end block_num]
  | (start, «end») :: rest, current_start, current_end, block_num, acc =>
    if start ≤ current_end + 2 then
      merge_top_level file source rest current_start «end» block_num acc
    else
      merge_top_level file source rest start «end» (block_num + 1)
        (acc ++ [mk_top_level_block file source current_start current_end
          block_num])

/-- `extract_top_level` (lines 117–170): classify, then group. -/
def extract_top_level (stmts : List Stmt) (source file : String) :
    List Block :=
  match top_level_ranges stmts with
  | [] => []
  | (s0, e0) :: rest => merge_top_level file source rest s0 e0 0 []

/-- Modelled from the spec: chunk a range list into maximal runs in which
each adjacent pair `(prev, next)` satisfies `next.start ≤ prev.end + 2`
(gap at most 2 lines, reading the gap between two ranges as
`next.start − prev.end`). -/
def gapRuns : List (Nat × Nat) → List (List (Nat × Nat))
  | [] => []
  | r :: rest =>
    match gapRuns rest with
    | [] => [[r]]
    | [] :: runs => [r] :: [] :: runs
    | (r2 :: run) :: runs =>
      if r2.1 ≤ r.2 + 2 then (r :: r2 :: run) :: runs
      else [r] :: (r2 :: run) :: runs

/-- Modelled from the spec: one TopLevel block per maximal run, spanning the
run's first start to its last end, named `<toplevel_i>` in encounter
order — applied to the code's contributing ranges. -/
def spec_top_level_blocks (stmts : List Stmt) (source file : String) :
    List Block :=
  (gapRuns (top_level_ranges stmts)).enum.map fun p =>
    mk_top_level_block file source (p.2.headD (0, 0)).1
      (p.2.getLastD (0, 0)).2 p.1

/-- Modelled from the spec: the ranges the *claim* says contribute — every
top-level statement that is neither an import nor a function/class
definition, where (per spec §4.1, "Function / Async function: one Function
block each") an async function definition is a function definition. -/
def claimed_contributing_ranges (stmts : List Stmt) : List (Nat × Nat) :=
  stmts.filterMap fun s =>
    match s.kind with
    | .importStmt | .importFrom | .functionDef | .asyncFunctionDef
    | .classDef => none
    | .other => some (s.start_line, s.end_line)

/-- Modelled from the spec: the TopLevel blocks the claim describes, built
from the claim's contributing ranges. -/
def claimed_top_level_blocks (stmts : List Stmt) (source file : String) :
    List Block :=
  (gapRuns (claimed_contributing_ranges stmts)).enum.map fun p =>
    mk_top_level_block file source (p.2.headD (0, 0)).1
      (p.2.getLastD (0, 0)).2 p.1

/-- The fixture for the C8 counterexample: a top-level statement, an async
function definition two lines below it, another top-level statement two
lines below that. -/
def asyncGapStmts : List Stmt :=
  [⟨.other, 1, 1⟩, ⟨.asyncFunctionDef, 3, 4⟩, ⟨.other, 6, 6⟩]

/-- The fixture source text those statements came from. -/
def asyncGapSource : String := "x = 1\n\nasync def f():\n    pass\n\ny = 2\n"

/-! # Theorems

All definitions above are the embedding; everything below proves and
refutes the claims against it. -/

theorem norm_lines_cons (a : List Char) (ls : List (List Char)) :
    norm_lines (a :: ls) =
      if !(trimLine a).isEmpty && !startsWithHash (trimLine a) then
        trimLine a :: norm_lines ls
      else norm_lines ls := by
  simp only [norm_lines, List.map_cons, List.filter_cons]

theorem LineEquiv.norm_eq {xs ys : List (List Char)} (h : LineEquiv xs ys) :
    norm_lines xs = norm_lines ys := by
  induction h with
  | nil => rfl
  | keep a b xs ys htrim _ ih =>
    rw [norm_lines_cons, norm_lines_cons, htrim, ih]
  | insL a xs ys hdrop _ ih =>
    rw [norm_lines_cons]
    have hcond : (!(trimLine a).isEmpty && !startsWithHash (trimLine a))
        = false := by
      simp only [dropped_line, Bool.or_eq_true] at hdrop
      rcases hdrop with h1 | h1 <;> simp [h1]
    rw [hcond]
    exact ih
  | insR b xs ys hdrop _ ih =>
    rw [norm_lines_cons]
    have hcond : (!(trimLine b).isEmpty && !startsWithHash (trimLine b))
        = false := by
      simp only [dropped_line, Bool.or_eq_true] at hdrop
      rcases hdrop with h1 | h1 <;> simp [h1]
    rw [hcond]
    exact ih

/-- Checksums agree whenever the line normalization agrees. -/
theorem checksum_congr {s t : String}
    (h : norm_lines (rustLines s) = norm_lines (rustLines t)) :
    compute_checksum s = compute_checksum t := by
  unfold compute_checksum
  rw [h]

/-! ### Association-list lemmas -/

theorem lookup_mapInsert_self {V : Type} (m : List (String × V)) (k : String)
    (v : V) : List.lookup k (mapInsert m k v) = some v := by
  induction m with
  | nil => simp [mapInsert, List.lookup]
  | cons p rest ih =>
    obtain ⟨k1, v1⟩ := p
    by_cases h : k1 = k
    · simp [mapInsert, h, List.lookup]
    · simp only [mapInsert, if_neg h, List.lookup]
      have : (k == k1) = false := by
        simp [beq_eq_false_iff_ne]
        exact fun he => h he.symm
      rw [this]
      exact ih

theorem lookup_mapInsert_ne {V : Type} (m : List (String × V)) (k : String)
    (v : V) (k' : String) (h : k' ≠ k) :
    List.lookup k' (mapInsert m k v) = List.lookup k' m := by
  have hbeq : (k' == k) = false := by
    simp [beq_eq_false_iff_ne]
    exact h
  induction m with
  | nil => simp [mapInsert, List.lookup, hbeq]
  | cons p rest ih =>
    obtain ⟨k1, v1⟩ := p
    by_cases h1 : k1 = k
    · subst h1
      simp [mapInsert, List.lookup, hbeq]
    · simp only [mapInsert, if_neg h1, List.lookup]
      cases hb1 : (k' == k1) with
      | true => rfl
      | false => exact ih

/-- When every dependency entry matches the Blocks table, the scan reaches
the end and yields `CanSkip`. -/
theorem needs_run_deps_canSkip (deps blocks : List (String × String))
    (h : ∀ k c, (k, c) ∈ deps → List.lookup k blocks = some c) :
    needs_run_deps deps blocks = .CanSkip := by
  induction deps with
  | nil => rfl
  | cons p rest ih =>
    obtain ⟨k, c⟩ := p
    have hk := h k c (List.mem_cons_self _ _)
    simp only [needs_run_deps, hk]
    rw [if_neg (fun hcc : c ≠ c => hcc rfl)]
    exact ih fun k' c' hm => h k' c' (List.mem_cons_of_mem _ hm)

/-- The dependency scan returns the first positive signal in iteration
order, `CanSkip` when there is none. -/
theorem needs_run_deps_eq_findSome (deps blocks : List (String × String)) :
    needs_run_deps deps blocks
      = (deps.findSome? (depSignal blocks)).getD .CanSkip := by
  induction deps with
  | nil => rfl
  | cons p rest ih =>
    obtain ⟨k, c⟩ := p
    simp only [needs_run_deps, List.findSome?_cons, depSignal]
    cases hl : List.lookup k blocks with
    | none => rfl
    | some current =>
      by_cases hc : current = c
      · simp [hc, ih]
      · simp [hc]

/-- Folding `mapInsert` over entries whose keys all differ from `k` does not
change what `k` maps to. -/
theorem foldl_mapInsert_lookup_notin {α V : Type} (f : α → String) (g : α → V)
    (l : List α) (m : List (String × V)) (k : String)
    (h : ∀ a ∈ l, f a ≠ k) :
    List.lookup k (l.foldl (fun m a => mapInsert m (f a) (g a)) m)
      = List.lookup k m := by
  induction l generalizing m with
  | nil => rfl
  | cons a rest ih =>
    simp only [List.foldl_cons]
    rw [ih _ fun a' ha' => h a' (List.mem_cons_of_mem _ ha')]
    exact lookup_mapInsert_ne m (f a) (g a) k
      (fun he => h a (List.mem_cons_self _ _) he.symm)

/-- Folding `mapInsert` over entries with pairwise distinct keys makes every
entry's key map to its value. -/
theorem foldl_mapInsert_lookup_mem {α V : Type} (f : α → String) (g : α → V)
    (l : List α) (m : List (String × V)) (b : α)
    (hnodup : (l.map f).Nodup) (hb : b ∈ l) :
    List.lookup (f b) (l.foldl (fun m a => mapInsert m (f a) (g a)) m)
      = some (g b) := by
  induction l generalizing m with
  | nil => cases hb
  | cons a rest ih =>
    simp only [List.map_cons, List.nodup_cons] at hnodup
    simp only [List.foldl_cons]
    rcases List.mem_cons.mp hb with rfl | hbr
    · rw [foldl_mapInsert_lookup_notin f g rest _ (f b)
        (fun a' ha' he => hnodup.1 (he ▸ List.mem_map_of_mem f ha'))]
      exact lookup_mapInsert_self m (f b) (g b)
    · exact ih _ hnodup.2 hbr

/-- `update_blocks` never touches the Tests table. -/
theorem foldl_update_blocks_tests (l : List FileBlocks)
    (db : DependencyDatabase) : (l.foldl update_blocks db).tests = db.tests := by
  induction l generalizing db with
  | nil => rfl
  | cons fb rest ih => exact ih _

/-! ## Claims C1, C9 (checksum) and C2, C4, C6, C10 (dependency store) -/

/-- C1: the block checksum is computed by splitting the source region into
lines, trimming each line, dropping lines empty or starting with `#` after
trimming, rejoining with `"\n"` and hashing (conjunct 1, against the spec's
own description); consequently any edit that only inserts/removes lines that
trim to blank or to a `#`-comment, or reindents lines (equal after trim),
leaves the checksum unchanged (conjunct 2).  Edits "outside string literals"
as the claim restricts them are particular instances of the `LineEquiv`
relation, so the claimed invariance follows for every block present in both
files. -/
theorem claim_C1 :
    (∀ s : String, compute_checksum s = checksum_spec_description s) ∧
    (∀ s t : String, LineEquiv (rustLines s) (rustLines t) →
      compute_checksum s = compute_checksum t) := by
  constructor
  · intro s
    simp only [compute_checksum, checksum_spec_description, norm_lines,
      Bool.not_or]
  · intro s t h
    exact checksum_congr h.norm_eq

/-- Witness for C1: the spec's own whitespace-stability scenario — a blank
line inserted and the body reindented. -/
theorem claim_C1_witness :
    compute_checksum "def foo():\n    return 1\n"
      = compute_checksum "def foo():\n\n        return 1\n" := by
  apply claim_C1.2
  have h1 : rustLines "def foo():\n    return 1\n"
      = ["def foo():".data, "    return 1".data] := by decide
  have h2 : rustLines "def foo():\n\n        return 1\n"
      = ["def foo():".data, "".data, "        return 1".data] := by decide
  rw [h1, h2]
  exact .keep _ _ _ _ (by decide)
    (.insR _ _ _ (by decide) (.keep _ _ _ _ (by decide) .nil))

/-- C9: the normalization is purely line-based and blind to string-literal
context: these two function bodies differ only inside a triple-quoted
multi-line string (the second has an extra `# c` line there), yet
`compute_checksum` returns identical values, so the content change can never
be detected as a dependency change. -/
theorem claim_C9 :
    compute_checksum "def f():\n    x = \"\"\"a\nb\"\"\"\n    return x"
      = compute_checksum "def f():\n    x = \"\"\"a\n# c\nb\"\"\"\n    return x"
    ∧ ("def f():\n    x = \"\"\"a\nb\"\"\"\n    return x" : String)
      ≠ "def f():\n    x = \"\"\"a\n# c\nb\"\"\"\n    return x" := by
  refine ⟨checksum_congr (by decide), by decide⟩

/-- C2: a recorded test whose row passed and whose every dependency entry is
present in the Blocks table with the expected checksum yields `CanSkip`; a
test with no recorded row yields `NeverRun`. -/
theorem claim_C2 (db : DependencyDatabase) (test : TestItem) :
    (∀ dep, List.lookup (test_key (TestId.ofItem test)) db.tests = some dep →
      dep.last_run_passed = true →
      (∀ k c, (k, c) ∈ dep.dependencies → List.lookup k db.blocks = some c) →
      needs_run db test = .CanSkip) ∧
    (List.lookup (test_key (TestId.ofItem test)) db.tests = none →
      needs_run db test = .NeverRun) := by
  constructor
  · intro dep hrow hpassed hdeps
    simp only [needs_run, hrow, hpassed, Bool.not_true, Bool.false_eq_true,
      if_false]
    exact needs_run_deps_canSkip _ _ hdeps
  · intro hnone
    simp only [needs_run, hnone]

/-- Witness for C2: a one-row database whose single dependency matches, and
the empty database. -/
theorem claim_C2_witness :
    needs_run dbAllMatch itemA = .CanSkip
      ∧ needs_run ⟨[], []⟩ itemA = .NeverRun := by
  constructor
  · refine (claim_C2 dbAllMatch itemA).1 ⟨[(block_key bidChanged, "aa")], true⟩
      (by with_unfolding_all decide) (by decide) ?_
    intro k c hm
    simp only [List.mem_singleton, Prod.mk.injEq] at hm
    obtain ⟨rfl, rfl⟩ := hm
    with_unfolding_all decide
  · exact (claim_C2 ⟨[], []⟩ itemA).2 (by with_unfolding_all decide)

/-- Counterexample to C4 as stated: `needs_run` scans the dependency map in
its (unspecified) iteration order and returns at the *first* mismatch, so a
row containing both a deleted and a changed dependency can yield
`DependencyChanged` — here the changed entry comes first in iteration order,
although the deleted entry `bidDeleted` is also present. -/
theorem claim_C4_counterexample :
    needs_run dbChangedAndDeleted itemA = .DependencyChanged
      ∧ List.lookup (block_key bidDeleted) dbChangedAndDeleted.blocks = none
      ∧ (block_key bidDeleted, "xx") ∈ depsChangedFirst
      ∧ List.lookup (test_key (TestId.ofItem itemA)) dbChangedAndDeleted.tests
          = some ⟨depsChangedFirst, true⟩
      ∧ List.lookup (block_key bidChanged) dbChangedAndDeleted.blocks
          = some "new"
      ∧ ("new" : String) ≠ "old" := by with_unfolding_all decide

/-- C4 (amended): `needs_run` checks `NeverRun`, then `FailedLastTime`, then
returns the first positive signal of the dependency scan in the map's
iteration order — `DependencyDeleted` if that first mismatching entry is
absent from Blocks, `DependencyChanged` if its checksum differs — and
`CanSkip` when every entry matches.  The relative priority between
`DependencyDeleted` and `DependencyChanged` is therefore decided by
iteration order, not fixed. -/
theorem claim_C4 (db : DependencyDatabase) (test : TestItem) :
    (List.lookup (test_key (TestId.ofItem test)) db.tests = none →
      needs_run db test = .NeverRun) ∧
    (∀ dep, List.lookup (test_key (TestId.ofItem test)) db.tests = some dep →
      dep.last_run_passed = false → needs_run db test = .FailedLastTime) ∧
    (∀ dep, List.lookup (test_key (TestId.ofItem test)) db.tests = some dep →
      dep.last_run_passed = true →
      needs_run db test
        = (dep.dependencies.findSome? (depSignal db.blocks)).getD .CanSkip) := by
  refine ⟨fun hnone => by simp only [needs_run, hnone], ?_, ?_⟩
  · intro dep hrow hfail
    simp only [needs_run, hrow, hfail, Bool.not_false, if_true]
  · intro dep hrow hpass
    simp only [needs_run, hrow, hpass, Bool.not_true, Bool.false_eq_true,
      if_false]
    exact needs_run_deps_eq_findSome _ _

/-- Witness for C4 (amended): on the concrete two-dependency database the
scan's first signal is `DependencyChanged`. -/
theorem claim_C4_witness :
    needs_run dbChangedAndDeleted itemA
      = (depsChangedFirst.findSome?
          (depSignal dbChangedAndDeleted.blocks)).getD .CanSkip :=
  (claim_C4 dbChangedAndDeleted itemA).2.2 ⟨depsChangedFirst, true⟩
    (by with_unfolding_all decide) (by decide)

/-- Counterexample to C6 as stated: re-indexing `"f.py"` (whose block
`"gone"` has disappeared, leaving only `"kept"`) does *not* remove the stale
entry — its key still maps to its old checksum although it belongs to this
file and is not among the supplied blocks. -/
theorem claim_C6_counterexample :
    List.lookup (block_key staleId) (update_blocks dbStale fbKept).blocks
        = some "c1"
      ∧ staleId.file = fbKept.file
      ∧ fbKept.blocks.all (fun b => block_key b.id != block_key staleId)
      := by with_unfolding_all decide

/-- C6 (amended): `update_blocks` upserts an entry for every supplied block
(key ↦ that block's checksum, assuming the file's block keys are pairwise
distinct), leaves every other key unchanged, and does not touch the Tests
table; stale entries for blocks no longer present in the file are *not*
removed, so the file's entries after the call are the new blocks plus any
stale leftovers. -/
theorem claim_C6 (db : DependencyDatabase) (fb : FileBlocks)
    (hnodup : (fb.blocks.map (fun b => block_key b.id)).Nodup) :
    (∀ b ∈ fb.blocks,
      List.lookup (block_key b.id) (update_blocks db fb).blocks
        = some b.checksum) ∧
    (∀ k, (∀ b ∈ fb.blocks, block_key b.id ≠ k) →
      List.lookup k (update_blocks db fb).blocks = List.lookup k db.blocks) ∧
    (update_blocks db fb).tests = db.tests := by
  refine ⟨?_, ?_, rfl⟩
  · intro b hb
    exact foldl_mapInsert_lookup_mem (fun b => block_key b.id)
      (fun b => b.checksum) fb.blocks db.blocks b hnodup hb
  · intro k hk
    exact foldl_mapInsert_lookup_notin (fun b => block_key b.id)
      (fun b => b.checksum) fb.blocks db.blocks k hk

/-- Witness for C6 (amended): on the concrete re-indexing, the new block's
entry is set, the stale key is untouched, and the Tests table is unchanged. -/
theorem claim_C6_witness :
    List.lookup (block_key keptBlock.id) (update_blocks dbStale fbKept).blocks
        = some "c2"
      ∧ (update_blocks dbStale fbKept).tests = dbStale.tests :=
  ⟨(claim_C6 dbStale fbKept (by with_unfolding_all decide)).1 keptBlock
      (by decide),
    (claim_C6 dbStale fbKept (by with_unfolding_all decide)).2.2⟩

/-- C10: recording a test with an empty coverage map and `passed = true`
stores a row with an empty dependency map, and `needs_run` then returns
`CanSkip` no matter how many `update_blocks` calls follow — with no
dependencies the test can never see `DependencyChanged` or
`DependencyDeleted` until re-recorded. -/
theorem claim_C10 (db : DependencyDatabase) (test : TestItem)
    (block_index : List (String × FileBlocks)) (later : List FileBlocks) :
    (List.lookup (test_key (TestId.ofItem test))
        (record_test_coverage db test [] true block_index).tests
      = some ⟨[], true⟩) ∧
    needs_run (later.foldl update_blocks
        (record_test_coverage db test [] true block_index)) test
      = .CanSkip := by
  have hrow : List.lookup (test_key (TestId.ofItem test))
      (record_test_coverage db test [] true block_index).tests
      = some ⟨[], true⟩ := by
    simp only [record_test_coverage, List.foldl_nil]
    exact lookup_mapInsert_self _ _ _
  refine ⟨hrow, ?_⟩
  have htests := foldl_update_blocks_tests later
    (record_test_coverage db test [] true block_index)
  simp only [needs_run, htests, hrow]
  rfl

/-! ### No newline escapes the JSON text -/

/-- From a decidable `all` check on a concrete character list to the
propositional statement. -/
theorem all_ne_newline {l : List Char}
    (h : l.all (fun c => c != '\n') = true) : ∀ c ∈ l, c ≠ '\n' := by
  intro c hc
  simpa using List.all_eq_true.mp h c hc

theorem digitToChar_ne_newline (n : Nat) (hn : n < 16) :
    digitToChar n ≠ '\n' := by
  have h : ∀ m : Fin 16, digitToChar m.val ≠ '\n' := by decide
  exact h ⟨n, hn⟩

theorem natToDigitsGo_ne_newline (base : Nat) (hb : 0 < base)
    (hb16 : base ≤ 16) (fuel n : Nat) (acc : List Char)
    (hacc : ∀ c ∈ acc, c ≠ '\n') :
    ∀ c ∈ natToDigitsGo base fuel n acc, c ≠ '\n' := by
  induction fuel generalizing n acc with
  | zero => exact hacc
  | succ fuel ih =>
    intro c hc
    simp only [natToDigitsGo] at hc
    have hstep : ∀ c ∈ digitToChar (n % base) :: acc, c ≠ '\n' := by
      intro c2 hc2
      rcases List.mem_cons.mp hc2 with rfl | hmem
      · exact digitToChar_ne_newline _ (lt_of_lt_of_le (Nat.mod_lt _ hb) hb16)
      · exact hacc c2 hmem
    by_cases hnb : n / base = 0
    · rw [if_pos hnb] at hc
      exact hstep c hc
    · rw [if_neg hnb] at hc
      exact ih _ _ hstep c hc

theorem natToDigits_ne_newline (base n : Nat) (hb : 0 < base)
    (hb16 : base ≤ 16) : ∀ c ∈ natToDigits base n, c ≠ '\n' :=
  natToDigitsGo_ne_newline base hb hb16 (n + 1) n []
    (by intro c hc; cases hc)

theorem hexDigit_ne_newline (n : Nat) : hexDigit n ≠ '\n' :=
  digitToChar_ne_newline (n % 16) (Nat.mod_lt _ (by omega))

theorem escapeChar_ne_newline (c : Char) :
    ∀ c2 ∈ escapeChar c, c2 ≠ '\n' := by
  intro c2 hc2
  unfold escapeChar at hc2
  split_ifs at hc2 with h1 h2 h3 h4 h5 h6 h7 h8
  · exact all_ne_newline (by decide) c2 hc2
  · exact all_ne_newline (by decide) c2 hc2
  · exact all_ne_newline (by decide) c2 hc2
  · exact all_ne_newline (by decide) c2 hc2
  · exact all_ne_newline (by decide) c2 hc2
  · exact all_ne_newline (by decide) c2 hc2
  · exact all_ne_newline (by decide) c2 hc2
  · simp only [List.mem_cons, List.not_mem_nil, or_false] at hc2
    rcases hc2 with rfl | rfl | rfl | rfl | rfl | rfl
    · decide
    · decide
    · decide
    · decide
    · exact hexDigit_ne_newline _
    · exact hexDigit_ne_newline _
  · simp only [List.mem_cons, List.not_mem_nil, or_false] at hc2
    subst hc2
    exact h3

theorem jsonString_ne_newline (s : String) :
    ∀ c ∈ jsonString s, c ≠ '\n' := by
  intro c hc
  unfold jsonString at hc
  rcases List.mem_cons.mp hc with rfl | hc
  · decide
  · rcases List.mem_append.mp hc with hc | hc
    · obtain ⟨piece, hpiece, hcp⟩ := List.mem_flatten.mp hc
      obtain ⟨ch, _, rfl⟩ := List.mem_map.mp hpiece
      exact escapeChar_ne_newline ch c hcp
    · simp only [List.mem_singleton] at hc
      subst hc
      decide

theorem jvalChars_ne_newline (v : JVal) : ∀ c ∈ jvalChars v, c ≠ '\n' := by
  intro c hc
  match v with
  | .null => exact all_ne_newline (by decide) c hc
  | .jb true => exact all_ne_newline (by decide) c hc
  | .jb false => exact all_ne_newline (by decide) c hc
  | .jn n => exact natToDigits_ne_newline 10 n (by omega) (by omega) c hc
  | .js s => exact jsonString_ne_newline s c hc

theorem joinSep_ne_newline (sep : Char) (pieces : List (List Char))
    (hsep : sep ≠ '\n') (h : ∀ p ∈ pieces, ∀ c ∈ p, c ≠ '\n') :
    ∀ c ∈ joinSep sep pieces, c ≠ '\n' := by
  induction pieces with
  | nil => intro c hc; cases hc
  | cons p rest ih =>
    intro c hc
    match rest, hc with
    | [], hc => exact h p (List.mem_cons_self _ _) c hc
    | q :: rest, hc =>
      rcases List.mem_append.mp hc with hc | hc
      · exact h p (List.mem_cons_self _ _) c hc
      · rcases List.mem_cons.mp hc with rfl | hc
        · exact hsep
        · exact ih (fun p' hp' => h p' (List.mem_cons_of_mem _ hp')) c hc

/-- The serialized JSON object contains no newline character, whatever the
keys and field values hold (strings are escaped). -/
theorem jsonObjChars_ne_newline (o : List (String × JVal)) :
    ∀ c ∈ jsonObjChars o, c ≠ '\n' := by
  intro c hc
  unfold jsonObjChars at hc
  rcases List.mem_cons.mp hc with rfl | hc
  · decide
  · rcases List.mem_append.mp hc with hc | hc
    · refine joinSep_ne_newline ',' _ (by decide) ?_ c hc
      intro p hp c' hc'
      obtain ⟨kv, hkv, rfl⟩ := List.mem_map.mp hp
      rcases List.mem_append.mp hc' with hc' | hc'
      · exact jsonString_ne_newline kv.1 c' hc'
      · rcases List.mem_cons.mp hc' with rfl | hc'
        · decide
        · exact jvalChars_ne_newline kv.2 c' hc'
    · simp only [List.mem_singleton] at hc
      subst hc
      decide

/-- `read_line` consumes exactly a newline-free payload plus its newline. -/
theorem read_line_append (payload rest : List Char)
    (h : ∀ c ∈ payload, c ≠ '\n') :
    read_line (payload ++ '\n' :: rest) = (payload ++ ['\n'], rest) := by
  induction payload with
  | nil => simp [read_line]
  | cons c cs ih =>
    have hc : c ≠ '\n' := h c (List.mem_cons_self _ _)
    have ih2 := ih (fun c2 hc2 => h c2 (List.mem_cons_of_mem _ hc2))
    simp only [List.cons_append, read_line, List.append_eq, if_neg hc, ih2]

/-! ## Claim C3 (wire framing) -/

/-- Counterexample to C3 as stated: the concrete shutdown frame the host
sends is `\x7b"cmd":"shutdown"\x7d\n` — a JSON line, *not* a frame whose
first four bytes are a little-endian length of the remaining payload. -/
theorem claim_C3_counterexample :
    ¬ (4 ≤ (frame_bytes shutdown_request).length ∧
        (frame_bytes shutdown_request).take 4
          = u32le ((frame_bytes shutdown_request).length - 4)) := by
  with_unfolding_all decide

/-- C3 (amended): frames between host and worker are newline-delimited JSON
lines, not length-prefixed: a request frame is the serialized object
followed by one `'\n'`; the JSON text itself contains no newline even when
field values do (they are escaped), so `read_line` recovers exactly the
frame and leaves the rest of the stream — which is how stdout/stderr with
embedded newlines survive the line framing. -/
theorem claim_C3 (o : List (String × JVal)) (rest : List Char) :
    (∀ c ∈ jsonObjChars o, c ≠ '\n')
    ∧ read_line (send_request_frame o ++ rest) = (send_request_frame o, rest)
    ∧ (send_request_frame o).getLast? = some '\n' := by
  have hnn := jsonObjChars_ne_newline o
  refine ⟨hnn, ?_, ?_⟩
  · show read_line (jsonObjChars o ++ ['\n'] ++ rest) = _
    rw [List.append_assoc]
    exact read_line_append _ rest hnn
  · show (jsonObjChars o ++ ['\n']).getLast? = some '\n'
    exact List.getLast?_concat _

/-- Witness for C3 (amended): a request whose `file` value contains an
embedded newline still travels as a single line, recovered exactly by
`read_line`. -/
theorem claim_C3_witness :
    read_line
        (send_request_frame (run_test_request 1 "a\nb.py" "test_a" none true)
          ++ ['x'])
      = (send_request_frame (run_test_request 1 "a\nb.py" "test_a" none true),
          ['x']) :=
  (claim_C3 (run_test_request 1 "a\nb.py" "test_a" none true) ['x']).2.1

/-! ## Claim C5 (crash/protocol-failure recovery) -/

/-- Counterexample to C5 as stated: a malformed response (`serde_json` parse
error) leaves the worker process alive, and then `worker_thread` fabricates
a failing result *immediately* — no respawn, no retry.  Here a retry would
have produced a passing result, yet the outcome is the fabricated failure. -/
theorem claim_C5_counterexample :
    handle_task_outcome itemA
        (.error "expected value at line 1 column 1") true true
        (.ok (passing_result itemA))
      = fabricated_failure itemA
          ("Worker error: " ++ "expected value at line 1 column 1")
    ∧ (handle_task_outcome itemA
        (.error "expected value at line 1 column 1") true true
        (.ok (passing_result itemA))).passed = false
    ∧ (passing_result itemA).passed = true := by decide

/-- C5 (amended): after a failed `run_test` (EOF *or* malformed response),
the supervisor respawns and retries exactly once only when the worker
process is dead; when the worker is still alive — the usual case for a
malformed response — it immediately fabricates a failing result
`"Worker error: …"`.  When dead: a successful respawn retries once, a second
failure fabricates `"Worker error after respawn: …"`, and a failed respawn
fabricates `"Worker crashed and respawn failed: …"`. -/
theorem claim_C5 (item : TestItem) (alive respawned : Bool)
    (first retry : Except String TestResult) :
    (∀ r, first = .ok r →
      handle_task_outcome item first alive respawned retry = r) ∧
    (∀ e, first = .error e → alive = true →
      handle_task_outcome item first alive respawned retry
        = fabricated_failure item ("Worker error: " ++ e)) ∧
    (∀ e r, first = .error e → alive = false → respawned = true →
      retry = .ok r →
      handle_task_outcome item first alive respawned retry = r) ∧
    (∀ e e2, first = .error e → alive = false → respawned = true →
      retry = .error e2 →
      handle_task_outcome item first alive respawned retry
        = fabricated_failure item ("Worker error after respawn: " ++ e2)) ∧
    (∀ e, first = .error e → alive = false → respawned = false →
      handle_task_outcome item first alive respawned retry
        = fabricated_failure item
            ("Worker crashed and respawn failed: " ++ e)) := by
  refine ⟨?_, ?_, ?_, ?_, ?_⟩
  · intro r h
    subst h
    rfl
  · intro e h ha
    subst h
    subst ha
    rfl
  · intro e r h ha hr hret
    subst h
    subst ha
    subst hr
    subst hret
    rfl
  · intro e e2 h ha hr hret
    subst h
    subst ha
    subst hr
    subst hret
    rfl
  · intro e h ha hr
    subst h
    subst ha
    subst hr
    rfl

/-- Witness for C5 (amended): the dead-worker branch at a concrete input —
after EOF the respawned worker's retry result is returned. -/
theorem claim_C5_witness :
    handle_task_outcome itemA (.error "Worker EOF (process died)") false true
        (.ok (passing_result itemA))
      = passing_result itemA :=
  (claim_C5 itemA false true (.error "Worker EOF (process died)")
      (.ok (passing_result itemA))).2.2.1 "Worker EOF (process died)"
    (passing_result itemA) rfl rfl rfl rfl

/-! ### List lemmas for the collection argument -/

theorem getD_replicate_none {α : Type} :
    ∀ (n i : Nat), (List.replicate n (none : Option α)).getD i none = none := by
  intro n
  induction n with
  | zero => intro i; cases i <;> rfl
  | succ n ih =>
    intro i
    cases i with
    | zero => rfl
    | succ i => exact ih i

theorem getD_set_opt {α : Type} :
    ∀ (l : List (Option α)) (i j : Nat) (v : Option α),
      (l.set i v).getD j none
        = if i = j ∧ i < l.length then v else l.getD j none := by
  intro l
  induction l with
  | nil =>
    intro i j v
    rw [if_neg (fun h => Nat.not_lt_zero i h.2)]
    rfl
  | cons a t ih =>
    intro i j v
    cases i with
    | zero =>
      cases j with
      | zero =>
        rw [if_pos ⟨rfl, Nat.succ_pos _⟩]
        rfl
      | succ j =>
        rw [if_neg (fun h => Nat.succ_ne_zero j h.1.symm)]
        rfl
    | succ i =>
      cases j with
      | zero =>
        rw [if_neg (fun h => Nat.succ_ne_zero i h.1)]
        rfl
      | succ j =>
        show (t.set i v).getD j none = _
        rw [ih i j v]
        rcases Decidable.em (i = j) with rfl | hne
        · rcases Decidable.em (i < t.length) with hlt | hge
          · rw [if_pos ⟨rfl, hlt⟩,
              if_pos ⟨rfl, by simpa [Nat.succ_lt_succ_iff] using hlt⟩]
          · rw [if_neg (fun h => hge h.2),
              if_neg (fun h => hge (by
                simpa [Nat.succ_lt_succ_iff] using h.2))]
            rfl
        · rw [if_neg (fun h => hne h.1),
            if_neg (fun h => hne (Nat.succ_injective h.1))]
          rfl

/-- Every filled slot holds a result whose `item` is the input item at that
index, given that every completion respects this. -/
theorem filled_slots_item (items : List TestItem)
    (completions : List (Nat × TestResult))
    (hc : ∀ p ∈ completions, p.1 < items.length →
      p.2.item = items.getD p.1 dummyItem) :
    ∀ (v : List (Option TestResult)), v.length = items.length →
    (∀ idx r, v.getD idx none = some r → r.item = items.getD idx dummyItem) →
    ∀ idx r,
      (completions.foldl (fun acc c => acc.set c.1 (some c.2)) v).getD idx none
        = some r →
      r.item = items.getD idx dummyItem := by
  induction completions with
  | nil =>
    intro v _ hv idx r h
    exact hv idx r h
  | cons c rest ih =>
    intro v hlen hv idx r h
    refine ih (fun p hp => hc p (List.mem_cons_of_mem _ hp))
      (v.set c.1 (some c.2)) (by rw [List.length_set]; exact hlen) ?_ idx r h
    intro idx2 r2 h2
    rw [getD_set_opt] at h2
    by_cases hcond : c.1 = idx2 ∧ c.1 < v.length
    · rw [if_pos hcond] at h2
      cases h2
      rw [← hcond.1]
      exact hc c (List.mem_cons_self _ _) (hlen ▸ hcond.2)
    · rw [if_neg hcond] at h2
      exact hv idx2 r2 h2

/-- Reconstructing a list from positional `getD` reads over its range. -/
theorem map_getD_range {α : Type} (l : List α) (d : α) :
    (List.range l.length).map (fun i => l.getD i d) = l := by
  induction l with
  | nil => rfl
  | cons a t ih =>
    rw [List.length_cons, List.range_succ_eq_map, List.map_cons,
      List.map_map]
    show a :: (List.range t.length).map (fun i => t.getD i d) = a :: t
    rw [ih]

/-- `worker_run_test` only ever succeeds with the requested item inside. -/
theorem worker_run_test_item (item : TestItem) (cc : Bool)
    (io : Except String RespFields) (r : TestResult)
    (h : worker_run_test item cc io = .ok r) : r.item = item := by
  match io with
  | .error e => cases h
  | .ok resp =>
    cases h
    rfl

/-- `handle_task_outcome` preserves the item of whichever branch fires. -/
theorem handle_task_outcome_item (item : TestItem)
    (first : Except String TestResult) (alive respawned : Bool)
    (retry : Except String TestResult)
    (hfirst : ∀ r, first = .ok r → r.item = item)
    (hretry : ∀ r, retry = .ok r → r.item = item) :
    (handle_task_outcome item first alive respawned retry).item = item := by
  match first with
  | .ok r => exact hfirst r rfl
  | .error e =>
    cases alive with
    | true => rfl
    | false =>
      cases respawned with
      | false => rfl
      | true =>
        cases retry with
        | ok r2 => exact hretry r2 rfl
        | error e2 => rfl

/-! ## Claim C7 (results keep their input item, in input order) -/

/-- C7: the vector `run_tests` returns has, at every index, a result whose
`item` is the input item at that index — mapping `·.item` over the returned
vector gives back the input list exactly, for worker-produced results
(hypothesis `hc`, itself discharged for every worker result by the second
conjunct: whatever branch of `worker_thread`'s recovery fires, the produced
result carries the task's item) and for fabricated never-ran slots alike. -/
theorem claim_C7 (items : List TestItem)
    (completions : List (Nat × TestResult))
    (hc : ∀ p ∈ completions, p.1 < items.length →
      p.2.item = items.getD p.1 dummyItem) :
    ((run_tests_collect items completions).map (fun r => r.item) = items) ∧
    (∀ (item : TestItem) (cc : Bool) (ioF ioR : Except String RespFields)
        (alive respawned : Bool),
      (handle_task_outcome item (worker_run_test item cc ioF) alive respawned
        (worker_run_test item cc ioR)).item = item) := by
  constructor
  · unfold run_tests_collect
    rw [List.map_map]
    have hslot := filled_slots_item items completions hc
      (List.replicate items.length none) (List.length_replicate _ _)
      (fun idx r h => by rw [getD_replicate_none] at h; cases h)
    have hpt : ∀ idx ∈ List.range items.length,
        ((fun r => r.item) ∘ fun idx =>
          ((completions.foldl (fun acc c => acc.set c.1 (some c.2))
              (List.replicate items.length none)).getD idx none).getD
            (not_executed_result (items.getD idx dummyItem))) idx
          = items.getD idx dummyItem := by
      intro idx _
      show (((completions.foldl (fun acc c => acc.set c.1 (some c.2))
          (List.replicate items.length none)).getD idx none).getD
            (not_executed_result (items.getD idx dummyItem))).item
          = items.getD idx dummyItem
      cases hslot2 : (completions.foldl (fun acc c => acc.set c.1 (some c.2))
          (List.replicate items.length none)).getD idx none with
      | none => rfl
      | some r => exact hslot idx r hslot2
    rw [List.map_congr_left hpt]
    exact map_getD_range items dummyItem
  · intro item cc ioF ioR alive respawned
    exact handle_task_outcome_item item _ alive respawned _
      (worker_run_test_item item cc ioF) (worker_run_test_item item cc ioR)

/-- Witness for C7: two tests; the first completes (passing), the second's
slot is fabricated — the returned items are the inputs, in order. -/
theorem claim_C7_witness :
    (run_tests_collect [itemA, itemB]
        [(0, passing_result itemA)]).map (fun r => r.item)
      = [itemA, itemB] :=
  (claim_C7 [itemA, itemB] [(0, passing_result itemA)] (by decide)).1

/-! ### The merge loop computes the spec's chunking -/

/-- The last component of `getLastD` over a nonempty list only depends on
the head through its second component. -/
theorem getLastD_snd_congr (l : List (Nat × Nat)) (x y d d2 : Nat × Nat)
    (h : x.2 = y.2) :
    (List.getLastD (x :: l) d).2 = (List.getLastD (y :: l) d2).2 := by
  cases l with
  | nil => simpa using h
  | cons a t => simp only [List.getLastD_cons]

/-- The one-step unfolding of `gapRuns`. -/
theorem gapRuns_cons_eq (r : Nat × Nat) (l : List (Nat × Nat)) :
    gapRuns (r :: l)
      = match gapRuns l with
        | [] => [[r]]
        | [] :: runs => [r] :: [] :: runs
        | (r2 :: run) :: runs =>
          if r2.1 ≤ r.2 + 2 then (r :: r2 :: run) :: runs
          else [r] :: (r2 :: run) :: runs := rfl

/-- `gapRuns (r :: rest)` always starts a run with `r`, and that structure
only depends on `r` through `r.2` (the merge test compares against the
current end). -/
theorem gapRuns_cons_shape (r : Nat × Nat) (rest : List (Nat × Nat)) :
    ∃ run runs, gapRuns (r :: rest) = (r :: run) :: runs ∧
      ∀ r2 : Nat × Nat, r2.2 = r.2 →
        gapRuns (r2 :: rest) = (r2 :: run) :: runs := by
  cases h : gapRuns rest with
  | nil =>
    exact ⟨[], [], by rw [gapRuns_cons_eq, h],
      fun r2 _ => by rw [gapRuns_cons_eq, h]⟩
  | cons first runs =>
    cases first with
    | nil =>
      exact ⟨[], [] :: runs, by rw [gapRuns_cons_eq, h],
        fun r2 _ => by rw [gapRuns_cons_eq, h]⟩
    | cons r3 run =>
      by_cases hle : r3.1 ≤ r.2 + 2
      · refine ⟨r3 :: run, runs, by rw [gapRuns_cons_eq, h]; simp [hle], ?_⟩
        intro r2 h2
        rw [gapRuns_cons_eq, h]
        simp [h2, hle]
      · refine ⟨[], (r3 :: run) :: runs,
          by rw [gapRuns_cons_eq, h]; simp [hle], ?_⟩
        intro r2 h2
        rw [gapRuns_cons_eq, h]
        simp [h2, hle]

/-- The merge loop emits exactly the spec's chunking of the pending ranges,
numbered from the current block number, appended to the accumulator. -/
theorem merge_top_level_spec (file source : String) :
    ∀ (rest : List (Nat × Nat)) (cs ce num : Nat) (acc : List Block),
      merge_top_level file source rest cs ce num acc
        = acc ++ (List.enumFrom num (gapRuns ((cs, ce) :: rest))).map
            (fun p => mk_top_level_block file source (p.2.headD (0, 0)).1
              (p.2.getLastD (0, 0)).2 p.1) := by
  intro rest
  induction rest with
  | nil =>
    intro cs ce num acc
    show acc ++ [mk_top_level_block file source cs ce num] = _
    rw [show gapRuns [(cs, ce)] = [[(cs, ce)]] from rfl]
    rfl
  | cons se rest ih =>
    obtain ⟨s, e⟩ := se
    intro cs ce num acc
    obtain ⟨run, runs, hshape, hcongr⟩ := gapRuns_cons_shape (s, e) rest
    by_cases hle : s ≤ ce + 2
    · have hlhs : merge_top_level file source ((s, e) :: rest) cs ce num acc
          = merge_top_level file source rest cs e num acc := by
        simp [merge_top_level, hle]
      rw [hlhs, ih cs e num acc]
      have hmerged : gapRuns ((cs, ce) :: (s, e) :: rest)
          = ((cs, ce) :: (s, e) :: run) :: runs := by
        rw [gapRuns_cons_eq, hshape]
        simp [hle]
      have hcur : gapRuns ((cs, e) :: rest) = ((cs, e) :: run) :: runs :=
        hcongr (cs, e) rfl
      rw [hmerged, hcur]
      have hlast : (((cs, e) :: run).getLastD ((0 : Nat), (0 : Nat))).2
          = (((cs, ce) :: (s, e) :: run).getLastD ((0 : Nat), (0 : Nat))).2 := by
        simp only [List.getLastD_cons]
        cases run with
        | nil => rfl
        | cons a t => simp only [List.getLastD_cons]
      simp only [List.enumFrom, List.map_cons]
      rw [hlast]
      rfl
    · have hlhs : merge_top_level file source ((s, e) :: rest) cs ce num acc
          = merge_top_level file source rest s e (num + 1)
              (acc ++ [mk_top_level_block file source cs ce num]) := by
        simp [merge_top_level, hle]
      rw [hlhs, ih s e (num + 1) _]
      have hsplit : gapRuns ((cs, ce) :: (s, e) :: rest)
          = [(cs, ce)] :: ((s, e) :: run) :: runs := by
        rw [gapRuns_cons_eq, hshape]
        simp [hle]
      rw [hsplit, hshape]
      simp only [List.enumFrom, List.map_cons, List.append_assoc,
        List.singleton_append]
      rfl

/-! ## Claim C8 (top-level grouping) -/

/-- Counterexample to C8 as stated: `extract_top_level` does not skip async
function definitions (its `match` omits `AsyncFunctionDef`), so an async
`def` between two top-level statements contributes a bridging range.  Here
the two genuine top-level statements sit at lines 1 and 6 — gap 5, far more
than 2 — yet the code emits a *single* `<toplevel_0>` block spanning lines
1–6, where the claim (imports and function/class definitions excluded, an
async def being a function definition per spec §4.1) predicts two blocks
`<toplevel_0>` (1–1) and `<toplevel_1>` (6–6). -/
theorem claim_C8_counterexample :
    (extract_top_level asyncGapStmts asyncGapSource "t.py").map
        (fun b => b.id)
      = [⟨"t.py", .TopLevel, "<toplevel_0>", 1, 6⟩]
    ∧ (claimed_top_level_blocks asyncGapStmts asyncGapSource "t.py").map
        (fun b => b.id)
      = [⟨"t.py", .TopLevel, "<toplevel_0>", 1, 1⟩,
          ⟨"t.py", .TopLevel, "<toplevel_1>", 6, 6⟩]
    ∧ (asyncGapStmts.getD 1 ⟨.other, 0, 0⟩).kind = .asyncFunctionDef := by
  decide

/-- C8 (amended): every top-level statement that is neither an import nor a
plain (non-async) function definition nor a class definition contributes its
line range — async function definitions *also* contribute, in addition to
being extracted as Function blocks — and `extract_top_level` groups those
ranges exactly into maximal runs in which each adjacent pair is merged iff
`next.start ≤ prev.end + 2` (gap ≤ 2 lines), one TopLevel block per run
spanning the run's first start to its last end, named `<toplevel_0>`,
`<toplevel_1>`, … in encounter order. -/
theorem claim_C8 (stmts : List Stmt) (source file : String) :
    extract_top_level stmts source file
      = spec_top_level_blocks stmts source file := by
  unfold extract_top_level spec_top_level_blocks
  cases h : top_level_ranges stmts with
  | nil => rfl
  | cons r rest =>
    obtain ⟨s0, e0⟩ := r
    show merge_top_level file source rest s0 e0 0 [] = _
    rw [merge_top_level_spec]
    rfl

end Taut
